import Mathlib

/-!
Verification of the Agent Semantic Protocol (Symplex) core against its
specification.  The Go sources under core/ and p2p/ are shallowly embedded:
Go strings and byte slices become lists of bytes (`Bytes`), Go maps become
association lists, fallible operations return `Option`/`Except`, and the two
external cryptographic primitives (Ed25519, SHA-256) are parameters of the
definitions that call them.

Floating point appears in two unrelated roles and is modelled accordingly:
  * at the wire codec (core/encoding.go) a float32 is only ever moved through
    `math.Float32bits`/`Float32frombits`, so vector elements and the
    `trust_score` field are modelled by their 32-bit IEEE-754 bit patterns
    (a bijection, hence exact);
  * in the trust ledger (core/did.go) only comparison with 0 and 1, addition
    and clamping occur, so values are modelled by `F32` below: an explicit
    NaN plus exact finite values.  Go comparisons on NaN return false and Go
    arithmetic propagates NaN, which `F32` reproduces; finite rounding is
    abstracted away, which the clamping claims are insensitive to;
  * `CosineSimilarity` (core/negotiation.go) is modelled parametrically in
    the float64 arithmetic, so its theorems hold for every value semantics of
    the IEEE operations.
-/

namespace ASP

/-- Go strings and byte slices, as lists of byte values. -/
abbrev Bytes := List Nat

/-- Byte list of an ASCII string literal.  Every literal appearing in the
embedded sources is ASCII, so code points coincide with UTF-8 bytes. -/
def ascii (s : String) : Bytes := s.data.map Char.toNat

/-- Insert-or-replace for an association list, the model of a Go map write
`m[k] = v`: the first binding of `k` is replaced in place, otherwise the new
binding is appended. -/
def putKV {β : Type} (l : List (Bytes × β)) (k : Bytes) (v : β) : List (Bytes × β) :=
  match l with
  | [] => [(k, v)]
  | (k0, v0) :: rest => if k0 = k then (k, v) :: rest else (k0, v0) :: putKV rest k v

/-- Go map read for string keys, used as `m[k]` with the zero value `d` when
the key is absent. -/
def getKV {β : Type} (l : List (Bytes × β)) (k : Bytes) (d : β) : β :=
  match l with
  | [] => d
  | (k0, v0) :: rest => if k0 = k then v0 else getKV rest k d

/-! ## Trust ledger value model (core/did.go) -/

/-- Model of a Go `float32` as stored by the trust ledger: `nan` is any IEEE
NaN, `val q` a finite value represented exactly. -/
inductive F32 where
  | nan : F32
  | val (q : ℚ) : F32
deriving DecidableEq

/-- Go float32 addition: NaN propagates, finite values add. -/
def F32.add : F32 → F32 → F32
  | val a, val b => val (a + b)
  | _, _ => nan

/-- Go comparison `v < 0`: false when `v` is NaN. -/
def F32.ltZero : F32 → Bool
  | val q => decide (q < 0)
  | nan => false

/-- Go comparison `v > 1`: false when `v` is NaN. -/
def F32.gtOne : F32 → Bool
  | val q => decide (1 < q)
  | nan => false

/-- core/did.go `clamp`: returns 0 below zero, 1 above one, otherwise the
argument itself.  A NaN argument fails both comparisons and is returned
unchanged. -/
def clamp (v : F32) : F32 :=
  if v.ltZero then .val 0 else if v.gtOne then .val 1 else v

/-- core/did.go `trustKey`: the ledger key is the plain concatenation
`from + "->" + to`. -/
def trustKey (fromDid toDid : Bytes) : Bytes := fromDid ++ ascii "->" ++ toDid

/-- core/did.go `TrustGraph`: the Go map from key strings to float32 scores,
as an association list. -/
structure TrustGraph where
  scores : List (Bytes × F32)
deriving DecidableEq

/-- core/did.go `TrustGraph.Set`: stores the clamped score. -/
def TrustGraph.set (tg : TrustGraph) (fromDid toDid : Bytes) (score : F32) : TrustGraph :=
  ⟨putKV tg.scores (trustKey fromDid toDid) (clamp score)⟩

/-- core/did.go `TrustGraph.Get`: reads the score, 0 when absent. -/
def TrustGraph.get (tg : TrustGraph) (fromDid toDid : Bytes) : F32 :=
  getKV tg.scores (trustKey fromDid toDid) (.val 0)

/-- core/did.go `TrustGraph.Apply`: adds `delta` to the existing score (the
map read defaulting to 0) and clamps. -/
def TrustGraph.apply (tg : TrustGraph) (fromDid toDid : Bytes) (delta : F32) : TrustGraph :=
  ⟨putKV tg.scores (trustKey fromDid toDid)
    (clamp (F32.add (getKV tg.scores (trustKey fromDid toDid) (.val 0)) delta))⟩

/-- A single call against the trust ledger, for reasoning about arbitrary
finite call sequences. -/
inductive TrustOp where
  | set (fromDid toDid : Bytes) (score : F32)
  | app (fromDid toDid : Bytes) (delta : F32)
deriving DecidableEq

/-- The float argument of a ledger call. -/
def TrustOp.arg : TrustOp → F32
  | .set _ _ v => v
  | .app _ _ v => v

/-- The ledger key a call writes. -/
def TrustOp.key : TrustOp → Bytes
  | .set f t _ => trustKey f t
  | .app f t _ => trustKey f t

/-- Runs a sequence of ledger calls left to right. -/
def runTrustOps : List TrustOp → TrustGraph → TrustGraph
  | [], tg => tg
  | .set f t v :: rest, tg => runTrustOps rest (tg.set f t v)
  | .app f t v :: rest, tg => runTrustOps rest (tg.apply f t v)

/-- The closed unit interval, as a predicate on ledger values.  NaN is not in
the interval. -/
def F32.inUnit : F32 → Prop
  | .nan => False
  | .val q => 0 ≤ q ∧ q ≤ 1

theorem clamp_inUnit (v : F32) (h : v ≠ F32.nan) : (clamp v).inUnit := by
  cases v with
  | nan => exact absurd rfl h
  | val q =>
    unfold clamp F32.ltZero F32.gtOne
    by_cases h0 : q < 0
    · simp [h0, F32.inUnit]
    · by_cases h1 : 1 < q
      · simp [h0, h1, F32.inUnit]
      · simp [h0, h1, F32.inUnit]
        exact ⟨le_of_not_lt h0, le_of_not_lt h1⟩

/-- Every value stored in the ledger lies in the unit interval. -/
def TrustGraph.Wf (tg : TrustGraph) : Prop := ∀ p ∈ tg.scores, F32.inUnit p.2

theorem putKV_wf (l : List (Bytes × F32)) (k : Bytes) (v : F32)
    (hl : ∀ p ∈ l, F32.inUnit p.2) (hv : v.inUnit) :
    ∀ p ∈ putKV l k v, F32.inUnit p.2 := by
  induction l with
  | nil =>
    intro p hp
    simp only [putKV, List.mem_singleton] at hp
    subst hp; exact hv
  | cons hd tl ih =>
    intro p hp
    simp only [putKV] at hp
    by_cases hk : hd.1 = k
    · rw [if_pos hk] at hp
      rcases List.mem_cons.mp hp with h | h
      · subst h; exact hv
      · exact hl p (List.mem_cons_of_mem hd h)
    · rw [if_neg hk] at hp
      rcases List.mem_cons.mp hp with h | h
      · subst h; exact hl hd (List.mem_cons_self hd tl)
      · exact ih (fun q hq => hl q (List.mem_cons_of_mem hd hq)) p h

theorem getKV_wf (l : List (Bytes × F32)) (k : Bytes)
    (hl : ∀ p ∈ l, F32.inUnit p.2) : (getKV l k (.val 0)).inUnit := by
  induction l with
  | nil => simp [getKV, F32.inUnit]
  | cons hd tl ih =>
    simp only [getKV]
    by_cases hk : hd.1 = k
    · rw [if_pos hk]; exact hl hd (List.mem_cons_self hd tl)
    · rw [if_neg hk]; exact ih (fun q hq => hl q (List.mem_cons_of_mem hd hq))

theorem inUnit_ne_nan {v : F32} (h : v.inUnit) : v ≠ F32.nan := by
  cases v with
  | nan => exact absurd h id
  | val q => exact fun hc => F32.noConfusion hc

theorem runTrustOps_wf (ops : List TrustOp) (tg : TrustGraph)
    (hops : ∀ op ∈ ops, op.arg ≠ F32.nan) (htg : tg.Wf) :
    (runTrustOps ops tg).Wf := by
  induction ops generalizing tg with
  | nil => exact htg
  | cons op rest ih =>
    have hop : op.arg ≠ F32.nan := hops op (List.mem_cons_self op rest)
    have hrest : ∀ o ∈ rest, o.arg ≠ F32.nan :=
      fun o ho => hops o (List.mem_cons_of_mem op ho)
    cases op with
    | set f t v =>
      exact ih _ hrest (putKV_wf _ _ _ htg (clamp_inUnit v hop))
    | app f t v =>
      refine ih _ hrest (putKV_wf _ _ _ htg (clamp_inUnit _ ?_))
      have hold := getKV_wf tg.scores (trustKey f t) htg
      have hv2 : v ≠ F32.nan := hop
      cases hv : getKV tg.scores (trustKey f t) (.val 0) with
      | nan => rw [hv] at hold; exact absurd hold id
      | val q =>
        cases v with
        | nan => exact absurd rfl hv2
        | val d => simp [F32.add]

/-- Keys never written by a sequence of calls keep their default. -/
theorem runTrustOps_frame (ops : List TrustOp) (tg : TrustGraph) (k : Bytes)
    (hk : ∀ op ∈ ops, op.key ≠ k) :
    getKV (runTrustOps ops tg).scores k (.val 0) = getKV tg.scores k (.val 0) := by
  induction ops generalizing tg with
  | nil => rfl
  | cons op rest ih =>
    have hop : op.key ≠ k := hk op (List.mem_cons_self op rest)
    have hrest : ∀ o ∈ rest, o.key ≠ k := fun o ho => hk o (List.mem_cons_of_mem op ho)
    have hput : ∀ (l : List (Bytes × F32)) (k0 : Bytes) (v : F32), k0 ≠ k →
        getKV (putKV l k0 v) k (.val 0) = getKV l k (.val 0) := by
      intro l k0 v hne
      induction l with
      | nil => simp [putKV, getKV, hne]
      | cons hd tl ihl =>
        simp only [putKV]
        by_cases h0 : hd.1 = k0
        · simp [h0, getKV, hne]
        · simp only [h0, if_false, getKV]
          by_cases h1 : hd.1 = k
          · simp [h1]
          · simp [h1, ihl]
    cases op with
    | set f t v =>
      show getKV (runTrustOps rest (tg.set f t v)).scores k (.val 0) = _
      rw [ih _ hrest]
      exact hput tg.scores _ _ hop
    | app f t v =>
      show getKV (runTrustOps rest (tg.apply f t v)).scores k (.val 0) = _
      rw [ih _ hrest]
      exact hput tg.scores _ _ hop

/-! ## Cosine similarity (core/negotiation.go) -/

/-- The float64 operations used by `CosineSimilarity`.  The model is
parametric in the carrier, so everything proved about it holds for any value
semantics of the IEEE-754 operations (including NaN, whose propagation every
operation below handles uniformly); `beq` models the Go `==` comparison
against zero. -/
structure GoFloatOps (α : Type) where
  zero : α
  add : α → α → α
  mul : α → α → α
  div : α → α → α
  sqrt : α → α
  beq : α → α → Bool

/-- The accumulation loop of `CosineSimilarity`: one pass over both vectors
building `dot`, `normA` and `normB`.  It is only applied to equal-length
lists (the source guards first), where it coincides with the Go
`for i := range a` loop. -/
def cosLoop {α : Type} (ops : GoFloatOps α) :
    List α → List α → α → α → α → α × α × α
  | x :: xs, y :: ys, dot, nA, nB =>
      cosLoop ops xs ys (ops.add dot (ops.mul x y))
        (ops.add nA (ops.mul x x)) (ops.add nB (ops.mul y y))
  | _, _, dot, nA, nB => (dot, nA, nB)

/-- core/negotiation.go `CosineSimilarity`: 0 when the lengths differ or are
zero, 0 when either accumulated norm compares equal to 0, otherwise
`dot / (sqrt normA * sqrt normB)`. -/
def CosineSimilarity {α : Type} (ops : GoFloatOps α) (a b : List α) : α :=
  if a.length ≠ b.length ∨ a.length = 0 then ops.zero
  else
    let r := cosLoop ops a b ops.zero ops.zero ops.zero
    if ops.beq r.2.1 ops.zero || ops.beq r.2.2 ops.zero then ops.zero
    else ops.div r.1 (ops.mul (ops.sqrt r.2.1) (ops.sqrt r.2.2))

theorem cosLoop_swap {α : Type} (ops : GoFloatOps α)
    (hmul : ∀ x y, ops.mul x y = ops.mul y x) :
    ∀ (xs ys : List α) (d nA nB : α),
      cosLoop ops ys xs d nB nA =
        ((cosLoop ops xs ys d nA nB).1,
         (cosLoop ops xs ys d nA nB).2.2,
         (cosLoop ops xs ys d nA nB).2.1) := by
  intro xs
  induction xs with
  | nil => intro ys d nA nB; cases ys <;> rfl
  | cons x xs ih =>
    intro ys d nA nB
    cases ys with
    | nil => rfl
    | cons y ys =>
      show cosLoop ops ys xs (ops.add d (ops.mul y x))
            (ops.add nB (ops.mul y y)) (ops.add nA (ops.mul x x)) = _
      rw [hmul y x, ih ys]
      rfl

/-! ## Protobuf wire primitives (google.golang.org/protobuf/encoding/protowire)

The codec in core/encoding.go builds messages from protowire's varint,
length-delimited and fixed-32 primitives.  They are embedded here at the byte
level.  The uint64 accumulator of `ConsumeVarint` is modelled by reducing the
exact accumulated value mod 2^64, which coincides with the shifted-add
wrap-around of the Go code. -/

/-- protowire.AppendVarint: little-endian base-128 groups with a continuation
bit.  Fuel 9 allows the 10 bytes that cover every uint64, the only values the
encoders pass. -/
def putUvarintAux : Nat → Nat → Bytes
  | 0, n => [n % 128]
  | fuel + 1, n => if n < 128 then [n] else (n % 128 + 128) :: putUvarintAux fuel (n / 128)

def putUvarint (n : Nat) : Bytes := putUvarintAux 9 n

/-- protowire.ConsumeVarint, before the final mod: at most 10 bytes, the last
of which must be 0 or 1 (the overflow check on the 10th byte). -/
def consumeVarintAux : Nat → Bytes → Option (Nat × Nat)
  | _, [] => none
  | 0, b :: _ => if b ≤ 1 then some (b, 1) else none
  | fuel + 1, b :: rest =>
      if b < 128 then some (b, 1)
      else
        match consumeVarintAux fuel rest with
        | some (v, n) => some (v * 128 + (b - 128), n + 1)
        | none => none

/-- protowire.ConsumeVarint: value and number of bytes consumed, `none` on a
truncated or overlong input. -/
def consumeVarint (data : Bytes) : Option (Nat × Nat) :=
  match consumeVarintAux 9 data with
  | some (v, n) => some (v % 2 ^ 64, n)
  | none => none

/-- protowire.ConsumeTag: a varint holding `field*8 + wiretype`.  The field
number is an int32 (`v >> 3` truncated), rejected when below 1. -/
def consumeTag (data : Bytes) : Option (Nat × Nat × Nat) :=
  match consumeVarint data with
  | some (v, n) =>
      let num := v / 8 % 2 ^ 32
      if 1 ≤ num ∧ num < 2 ^ 31 then some (num, v % 8, n) else none
  | none => none

/-- protowire.ConsumeBytes / ConsumeString: a varint length followed by that
many bytes. -/
def consumeBytes (data : Bytes) : Option (Bytes × Nat) :=
  match consumeVarint data with
  | some (len, n) =>
      if (data.drop n).length < len then none
      else some ((data.drop n).take len, n + len)
  | none => none

/-- protowire.ConsumeFixed32: 4 bytes little endian. -/
def consumeFixed32 (data : Bytes) : Option (Nat × Nat) :=
  match data with
  | b0 :: b1 :: b2 :: b3 :: _ =>
      some (b0 + b1 * 256 + b2 * 65536 + b3 * 16777216, 4)
  | _ => none

/-- protowire.ConsumeFieldValue for the wire types the Symplex codec can meet
when skipping an unknown field: varint (0), fixed64 (1), length-delimited (2)
and fixed32 (5).  The group wire types, which no Symplex encoder ever emits,
are rejected like any other unknown type. -/
def consumeFieldValue (typ : Nat) (data : Bytes) : Option Nat :=
  if typ = 0 then (consumeVarint data).map (fun p => p.2)
  else if typ = 1 then if 8 ≤ data.length then some 8 else none
  else if typ = 2 then (consumeBytes data).map (fun p => p.2)
  else if typ = 5 then if 4 ≤ data.length then some 4 else none
  else none

/-- protowire.AppendTag. -/
def appendTag (field typ : Nat) : Bytes := putUvarint (field * 8 + typ)

/-- The 4 little-endian bytes of a 32-bit word (binary.LittleEndian). -/
def fixed32LE (bits : Nat) : Bytes :=
  [bits % 256, bits / 256 % 256, bits / 65536 % 256, bits / 16777216 % 256]

/-! ## Field encoders (core/encoding.go, type `enc`) -/

/-- enc.str: skipped when the string is empty, else tag + length + bytes. -/
def encStr (field : Nat) (s : Bytes) : Bytes :=
  if s = [] then [] else appendTag field 2 ++ putUvarint s.length ++ s

/-- enc.bytes: same layout as enc.str, skipped when empty. -/
def encBytesF (field : Nat) (b : Bytes) : Bytes :=
  if b = [] then [] else appendTag field 2 ++ putUvarint b.length ++ b

/-- enc.i64: skipped when zero, else a varint of the value cast to uint64. -/
def encI64 (field : Nat) (v : Int) : Bytes :=
  if v = 0 then [] else appendTag field 0 ++ putUvarint (v % (2 ^ 64 : Int)).toNat

/-- enc.f32 holds the bit pattern of a float32; `v == 0` in Go also holds for
negative zero (bit pattern 2^31), so both are skipped. -/
def encF32 (field : Nat) (bits : Nat) : Bytes :=
  if bits = 0 ∨ bits = 2 ^ 31 then [] else appendTag field 5 ++ fixed32LE bits

/-- enc.boolean: skipped when false, else varint 1. -/
def encBool (field : Nat) (v : Bool) : Bytes :=
  if v then appendTag field 0 ++ putUvarint 1 else []

/-- enc.strs: one tag + length + bytes per element, empty elements included. -/
def encStrs (field : Nat) (ss : List Bytes) : Bytes :=
  (ss.map (fun s => appendTag field 2 ++ putUvarint s.length ++ s)).flatten

/-- enc.packedF32: skipped when empty, else one length-delimited field whose
payload is the 4-byte little-endian word of every element. -/
def encPackedF32 (field : Nat) (fs : List Nat) : Bytes :=
  if fs = [] then []
  else appendTag field 2 ++ putUvarint (4 * fs.length) ++ (fs.map fixed32LE).flatten

/-- enc.strMap: one nested message per entry (field 1 key, field 2 value),
in the iteration order the association list stands for. -/
def encStrMap (field : Nat) (m : List (Bytes × Bytes)) : Bytes :=
  (m.map (fun p =>
    let entry := appendTag 1 2 ++ putUvarint p.1.length ++ p.1
      ++ appendTag 2 2 ++ putUvarint p.2.length ++ p.2
    appendTag field 2 ++ putUvarint entry.length ++ entry)).flatten

/-! ## Decoding helpers -/

/-- The uint64 value read back as Go int64. -/
def toInt64 (n : Nat) : Int :=
  if n < 2 ^ 63 then (n : Int) else (n : Int) - 2 ^ 64

/-- decodePackedF32: consumes 4-byte little-endian words while at least 4
bytes remain. -/
def decodePackedF32 : Bytes → List Nat
  | b0 :: b1 :: b2 :: b3 :: rest =>
      (b0 + b1 * 256 + b2 * 65536 + b3 * 16777216) :: decodePackedF32 rest
  | _ => []

/-- decodeStrMapEntry: scans the nested entry message for fields 1 and 2.
The source's default branch skips with wire type BytesType regardless of the
actual tag type, which is reproduced.  The fuel argument only bounds the
recursion; every loop step consumes at least one byte, so fuel equal to the
byte count (as `decodeStrMapEntry` passes) is never exhausted. -/
def decodeStrMapEntryAux : Nat → Bytes → Bytes → Bytes → Option (Bytes × Bytes)
  | _, [], k, v => some (k, v)
  | 0, _ :: _, _, _ => none
  | fuel + 1, data, k, v =>
    match consumeTag data with
    | none => none
    | some (num, _, n) =>
      let d1 := data.drop n
      if num = 1 then
        match consumeBytes d1 with
        | some (s, n2) => decodeStrMapEntryAux fuel (d1.drop n2) s v
        | none => none
      else if num = 2 then
        match consumeBytes d1 with
        | some (s, n2) => decodeStrMapEntryAux fuel (d1.drop n2) k s
        | none => none
      else
        match consumeFieldValue 2 d1 with
        | some n2 => decodeStrMapEntryAux fuel (d1.drop n2) k v
        | none => none

def decodeStrMapEntry (b : Bytes) : Option (Bytes × Bytes) :=
  decodeStrMapEntryAux b.length b [] []

/-! ## Message structures (core/types.go, with the Signature fields the
roadmap added to IntentMessage and NegotiationResponse).  String fields are
byte lists; float32 vector elements and `trustScore` are IEEE bit patterns;
the `Logger` pointer on IntentMessage is omitted (it is never serialised and
touches no claim).  `trustDelta` on NegotiationResponse is an `F32` ledger
value, since every claim meets it between the negotiation handler and the
trust ledger and never on the wire. -/

structure IntentMessage where
  id : Bytes
  intentVector : List Nat
  capabilities : List Bytes
  did : Bytes
  payload : Bytes
  timestamp : Int
  trustScore : Nat
  metadata : List (Bytes × Bytes)
  signature : Bytes
deriving DecidableEq

structure HandshakeMessage where
  agentID : Bytes
  did : Bytes
  capabilities : List Bytes
  version : Bytes
  timestamp : Int
  publicKey : Bytes
  challenge : Bytes
  challengeResponse : Bytes
deriving DecidableEq

structure NegotiationResponse where
  requestID : Bytes
  agentID : Bytes
  accepted : Bool
  workflowSteps : List Bytes
  did : Bytes
  responseVector : List Nat
  timestamp : Int
  reason : Bytes
  trustDelta : F32
  signature : Bytes
deriving DecidableEq

structure CapabilityAnnouncement where
  agentID : Bytes
  did : Bytes
  capabilities : List Bytes
  timestamp : Int
  ttl : Int
deriving DecidableEq

/-! ## Message encoders (core/encoding.go) -/

/-- IntentMessage.Encode: fields 1-8 in order.  The source writes no field
for `m.Signature` (the roadmap reserves field 10 for it, but the encoder was
never extended), so a signature never reaches the wire. -/
def encodeIntent (m : IntentMessage) : Bytes :=
  encStr 1 m.id ++ encPackedF32 2 m.intentVector ++ encStrs 3 m.capabilities
    ++ encStr 4 m.did ++ encStr 5 m.payload ++ encI64 6 m.timestamp
    ++ encF32 7 m.trustScore ++ encStrMap 8 m.metadata

/-- HandshakeMessage.Encode: fields 1-8 in order. -/
def encodeHandshake (m : HandshakeMessage) : Bytes :=
  encStr 1 m.agentID ++ encStr 2 m.did ++ encStrs 3 m.capabilities
    ++ encStr 4 m.version ++ encI64 5 m.timestamp ++ encBytesF 6 m.publicKey
    ++ encBytesF 7 m.challenge ++ encBytesF 8 m.challengeResponse

/-- CapabilityAnnouncement.Encode: fields 1-5 in order. -/
def encodeCapability (m : CapabilityAnnouncement) : Bytes :=
  encStr 1 m.agentID ++ encStr 2 m.did ++ encStrs 3 m.capabilities
    ++ encI64 4 m.timestamp ++ encI64 5 m.ttl

/-! ## Message decoders (core/encoding.go)

Each decoder is the source's `for len(data) > 0` loop: consume a tag, switch
on the field number, skip unknown fields by wire type.  A fuel argument
bounds the recursion; each iteration consumes at least one byte (a consumed
tag is never empty), so fuel equal to the input length — as the entry points
pass — is never exhausted, and the zero-fuel branch is unreachable. -/

/-- DecodeIntentMessage's loop body.  There is no case for field 10: a
signature on the wire would be skipped, and `m.Signature` always keeps the
value it started with. -/
def decodeIntentAux : Nat → IntentMessage → Bytes → Option IntentMessage
  | _, m, [] => some m
  | 0, _, _ :: _ => none
  | fuel + 1, m, data =>
    match consumeTag data with
    | none => none
    | some (num, typ, n) =>
      let d1 := data.drop n
      if num = 1 then
        match consumeBytes d1 with
        | some (s, n2) => decodeIntentAux fuel { m with id := s } (d1.drop n2)
        | none => none
      else if num = 2 then
        match consumeBytes d1 with
        | some (b, n2) =>
            decodeIntentAux fuel { m with intentVector := decodePackedF32 b } (d1.drop n2)
        | none => none
      else if num = 3 then
        match consumeBytes d1 with
        | some (s, n2) =>
            decodeIntentAux fuel { m with capabilities := m.capabilities ++ [s] } (d1.drop n2)
        | none => none
      else if num = 4 then
        match consumeBytes d1 with
        | some (s, n2) => decodeIntentAux fuel { m with did := s } (d1.drop n2)
        | none => none
      else if num = 5 then
        match consumeBytes d1 with
        | some (s, n2) => decodeIntentAux fuel { m with payload := s } (d1.drop n2)
        | none => none
      else if num = 6 then
        match consumeVarint d1 with
        | some (v, n2) => decodeIntentAux fuel { m with timestamp := toInt64 v } (d1.drop n2)
        | none => none
      else if num = 7 then
        match consumeFixed32 d1 with
        | some (v, n2) => decodeIntentAux fuel { m with trustScore := v } (d1.drop n2)
        | none => none
      else if num = 8 then
        match consumeBytes d1 with
        | some (b, n2) =>
            match decodeStrMapEntry b with
            | some (k, v) =>
                decodeIntentAux fuel { m with metadata := putKV m.metadata k v } (d1.drop n2)
            | none => none
        | none => none
      else
        match consumeFieldValue typ d1 with
        | some n2 => decodeIntentAux fuel m (d1.drop n2)
        | none => none

/-- DecodeIntentMessage: starts from the zero message (with an empty
metadata map). -/
def decodeIntent (data : Bytes) : Option IntentMessage :=
  decodeIntentAux data.length
    { id := [], intentVector := [], capabilities := [], did := [], payload := [],
      timestamp := 0, trustScore := 0, metadata := [], signature := [] } data

/-- DecodeHandshakeMessage's loop body. -/
def decodeHandshakeAux : Nat → HandshakeMessage → Bytes → Option HandshakeMessage
  | _, m, [] => some m
  | 0, _, _ :: _ => none
  | fuel + 1, m, data =>
    match consumeTag data with
    | none => none
    | some (num, typ, n) =>
      let d1 := data.drop n
      if num = 1 then
        match consumeBytes d1 with
        | some (s, n2) => decodeHandshakeAux fuel { m with agentID := s } (d1.drop n2)
        | none => none
      else if num = 2 then
        match consumeBytes d1 with
        | some (s, n2) => decodeHandshakeAux fuel { m with did := s } (d1.drop n2)
        | none => none
      else if num = 3 then
        match consumeBytes d1 with
        | some (s, n2) =>
            decodeHandshakeAux fuel { m with capabilities := m.capabilities ++ [s] } (d1.drop n2)
        | none => none
      else if num = 4 then
        match consumeBytes d1 with
        | some (s, n2) => decodeHandshakeAux fuel { m with version := s } (d1.drop n2)
        | none => none
      else if num = 5 then
        match consumeVarint d1 with
        | some (v, n2) => decodeHandshakeAux fuel { m with timestamp := toInt64 v } (d1.drop n2)
        | none => none
      else if num = 6 then
        match consumeBytes d1 with
        | some (b, n2) => decodeHandshakeAux fuel { m with publicKey := b } (d1.drop n2)
        | none => none
      else if num = 7 then
        match consumeBytes d1 with
        | some (b, n2) => decodeHandshakeAux fuel { m with challenge := b } (d1.drop n2)
        | none => none
      else if num = 8 then
        match consumeBytes d1 with
        | some (b, n2) => decodeHandshakeAux fuel { m with challengeResponse := b } (d1.drop n2)
        | none => none
      else
        match consumeFieldValue typ d1 with
        | some n2 => decodeHandshakeAux fuel m (d1.drop n2)
        | none => none

/-- DecodeHandshakeMessage. -/
def decodeHandshake (data : Bytes) : Option HandshakeMessage :=
  decodeHandshakeAux data.length
    { agentID := [], did := [], capabilities := [], version := [], timestamp := 0,
      publicKey := [], challenge := [], challengeResponse := [] } data

/-- DecodeCapabilityAnnouncement's loop body. -/
def decodeCapabilityAux : Nat → CapabilityAnnouncement → Bytes → Option CapabilityAnnouncement
  | _, m, [] => some m
  | 0, _, _ :: _ => none
  | fuel + 1, m, data =>
    match consumeTag data with
    | none => none
    | some (num, typ, n) =>
      let d1 := data.drop n
      if num = 1 then
        match consumeBytes d1 with
        | some (s, n2) => decodeCapabilityAux fuel { m with agentID := s } (d1.drop n2)
        | none => none
      else if num = 2 then
        match consumeBytes d1 with
        | some (s, n2) => decodeCapabilityAux fuel { m with did := s } (d1.drop n2)
        | none => none
      else if num = 3 then
        match consumeBytes d1 with
        | some (s, n2) =>
            decodeCapabilityAux fuel { m with capabilities := m.capabilities ++ [s] } (d1.drop n2)
        | none => none
      else if num = 4 then
        match consumeVarint d1 with
        | some (v, n2) => decodeCapabilityAux fuel { m with timestamp := toInt64 v } (d1.drop n2)
        | none => none
      else if num = 5 then
        match consumeVarint d1 with
        | some (v, n2) => decodeCapabilityAux fuel { m with ttl := toInt64 v } (d1.drop n2)
        | none => none
      else
        match consumeFieldValue typ d1 with
        | some n2 => decodeCapabilityAux fuel m (d1.drop n2)
        | none => none

/-- DecodeCapabilityAnnouncement. -/
def decodeCapability (data : Bytes) : Option CapabilityAnnouncement :=
  decodeCapabilityAux data.length
    { agentID := [], did := [], capabilities := [], timestamp := 0, ttl := 0 } data

/-! ## Framing (core/encoding.go Frame/Unframe, p2p host.go readMsg) -/

/-- The 4 big-endian bytes of `n` as a uint32 (binary.BigEndian.PutUint32). -/
def be32bytes (n : Nat) : Bytes :=
  [n % 2 ^ 32 / 16777216, n % 2 ^ 32 / 65536 % 256, n % 2 ^ 32 / 256 % 256, n % 2 ^ 32 % 256]

/-- The big-endian uint32 held by the first 4 bytes (binary.BigEndian.Uint32). -/
def be32 (b : Bytes) : Nat :=
  match b with
  | b0 :: b1 :: b2 :: b3 :: _ => b0 * 16777216 + b1 * 65536 + b2 * 256 + b3
  | _ => 0

/-- core/encoding.go `Frame`: `[uint32 BE total][type byte][payload]` with
`total = 1 + len(payload)`. -/
def goFrame (msgType : Nat) (payload : Bytes) : Bytes :=
  be32bytes (1 + payload.length) ++ msgType :: payload

/-- Outcome of `Unframe`, with Go's runtime panic as an explicit result. -/
inductive UnframeResult where
  | ok (msgType : Nat) (payload : Bytes) : UnframeResult
  | err (msg : String) : UnframeResult
  | panicked : UnframeResult
deriving DecidableEq

/-- core/encoding.go `Unframe`: rejects inputs shorter than 5 bytes and
frames shorter than advertised, then slices `frame[5 : 4+total]`.  The Go
slice expression panics when `5 > 4+total`, i.e. when the advertised length
is 0; no upper bound is checked. -/
def unframe (frame : Bytes) : UnframeResult :=
  if frame.length < 5 then .err "frame too short"
  else
    let total := be32 (frame.take 4)
    if frame.length < 4 + total then .err "frame incomplete"
    else if 4 + total < 5 then .panicked
    else .ok (frame.getD 4 0) ((frame.drop 5).take (total - 1))

/-- p2p host.go `readMsg`: reads a 4-byte header, rejects an advertised
length below 1 or above 4 MiB, reads that many body bytes, and returns the
first body byte as the message type with the rest as payload. -/
def readMsg (input : Bytes) : Except String (Nat × Bytes) :=
  if input.length < 4 then .error "readMsg header"
  else
    let n := be32 (input.take 4)
    if n < 1 ∨ 4 * 1024 * 1024 < n then .error "readMsg: invalid length"
    else if (input.drop 4).length < n then .error "readMsg body"
    else
      match (input.drop 4).take n with
      | [] => .error "readMsg body"
      | t :: payload => .ok (t, payload)

/-! ## Identity and signatures (core/did.go)

Ed25519 and SHA-256 are external library calls; they enter the embedding as
parameters.  `SigScheme` carries `ed25519.Sign`/`ed25519.Verify` as plain
byte functions; `hashHex` stands for `hex.EncodeToString(sha256.Sum256 ·)`. -/

structure SigScheme where
  sign : Bytes → Bytes → Bytes
  verify : Bytes → Bytes → Bytes → Bool

/-- core/did.go `DID`: method and id from the string form, plus optional key
material (present when the DID was derived from a key, absent when parsed). -/
structure GoDID where
  method : Bytes
  id : Bytes
  pubKey : Option Bytes
  privKey : Option Bytes

/-- core/did.go `DID.String`: `"did:<method>:<id>"`. -/
def didString (d : GoDID) : Bytes := ascii "did:" ++ d.method ++ ascii ":" ++ d.id

/-- core/did.go `DIDFromPublicKey`: requires a 32-byte key, derives the id by
hashing it; no private key. -/
def didFromPublicKey (hashHex : Bytes → Bytes) (pubKey : Bytes) : Option GoDID :=
  if pubKey.length = 32 then some ⟨ascii "symplex", hashHex pubKey, some pubKey, none⟩
  else none

/-- Go whitespace bytes recognised by fmt's scanner. -/
def goSpace : Bytes := [32, 9, 10, 13, 11, 12]

/-- Splits at the first ':' (byte 58), the manual loop of `ParseDID`; `none`
when no colon occurs (method and id then stay empty and the source errors).
The source ranges over runes, but ':' is ASCII and UTF-8 continuation bytes
can never equal 0x3A, so the byte-level scan coincides. -/
def splitAtFirstColon : Bytes → Option (Bytes × Bytes)
  | [] => none
  | c :: rest =>
    if c = 58 then some ([], rest)
    else
      match splitAtFirstColon rest with
      | some (m, i) => some (c :: m, i)
      | none => none

/-- core/did.go `ParseDID`.  The `fmt.Sscanf(s, "did:%s")` pre-check succeeds
exactly when `s` starts with the literal `"did:"` and the remainder contains
a non-space byte (the `%s` verb needs a token); the manual loop then splits
the remainder at its first ':', requiring non-empty method and id. -/
def parseDID (s : Bytes) : Option GoDID :=
  if s.take 4 = ascii "did:" ∧ (s.drop 4).any (fun c => decide (c ∉ goSpace)) then
    match splitAtFirstColon (s.drop 4) with
    | some (method, id) =>
        if method = [] ∨ id = [] then none else some ⟨method, id, none, none⟩
    | none => none
  else none

/-- core/did.go `DID.Sign`: `none` models ErrNoPrivateKey. -/
def GoDID.sign (scheme : SigScheme) (d : GoDID) (data : Bytes) : Option Bytes :=
  match d.privKey with
  | none => none
  | some sk => some (scheme.sign sk data)

/-- core/did.go `DID.Verify`: false when no public key is embedded. -/
def GoDID.verify (scheme : SigScheme) (d : GoDID) (data sig : Bytes) : Bool :=
  match d.pubKey with
  | none => false
  | some pk => scheme.verify pk data sig

/-- core/did.go `DID.ValidateBinding`: the hex SHA-256 of the presented key
must equal the DID's id. -/
def validateBinding (hashHex : Bytes → Bytes) (d : GoDID) (pubKey : Bytes) : Bool :=
  hashHex pubKey = d.id

/-! ## Negotiation engine (core/negotiation.go) -/

/-- core/types.go `Agent`: public identity plus capability profile.  The
agent's key material lives inside its DID. -/
structure GoAgent where
  id : Bytes
  did : GoDID
  capabilities : List Bytes

/-- Float32 bit pattern of 0.5, the initial trust score of every intent. -/
def halfBits : Nat := 0x3F000000

/-- core/negotiation.go `CreateIntent`.  The random 128-bit hex id and the
`time.Now` stamp are environment inputs and appear as parameters; the
protocol version seeds the metadata; the sender signs `id + payload`.
`none` models the propagated signing error. -/
def createIntent (scheme : SigScheme) (sender : GoAgent) (idHex : Bytes) (ts : Int)
    (intentVector : List Nat) (requiredCapabilities : List Bytes) (payload : Bytes) :
    Option IntentMessage :=
  let intent : IntentMessage :=
    { id := idHex, intentVector := intentVector, capabilities := requiredCapabilities,
      did := didString sender.did, payload := payload, timestamp := ts,
      trustScore := halfBits, metadata := [(ascii "protocol", ascii "1.0.0")],
      signature := [] }
  match sender.did.sign scheme (intent.id ++ intent.payload) with
  | none => none
  | some sig => some { intent with signature := sig }

/-- core/negotiation.go `VerifyIntentSignature`: an empty signature passes;
otherwise the sender's key is rebuilt into a DID (length check included) and
Ed25519 verification runs over `id + payload`. -/
def verifyIntentSignature (scheme : SigScheme) (hashHex : Bytes → Bytes)
    (intent : IntentMessage) (pubKey : Bytes) : Bool :=
  if intent.signature = [] then true
  else
    match didFromPublicKey hashHex pubKey with
    | none => false
    | some d => d.verify scheme (intent.id ++ intent.payload) intent.signature

/-- core/negotiation.go `missingCapabilities`: the required tags absent from
the available list, in required order (the Go set lookup is list
membership). -/
def missingCapabilities (required available : List Bytes) : List Bytes :=
  required.filter (fun c => decide (c ∉ available))

/-- core/negotiation.go `buildWorkflow`: parse, one execute per required
capability in order, return. -/
def buildWorkflow (intent : IntentMessage) : List Bytes :=
  (ascii "parse_intent:" ++ intent.id)
    :: (intent.capabilities.map (fun c => ascii "execute:" ++ c)
        ++ [ascii "return_result:" ++ intent.id])

/-- core/negotiation.go `reflectVector`: pointwise float32 negation, which on
bit patterns flips the sign bit; nil for an empty vector. -/
def reflectVector (v : List Nat) : List Nat :=
  v.map (fun bits => if bits < 2 ^ 31 then bits + 2 ^ 31 else bits - 2 ^ 31)

/-- Go `fmt.Sprintf("%v", slice)` for a string slice: elements separated by
single spaces inside brackets. -/
def goFmtStrs (ss : List Bytes) : Bytes :=
  ascii "[" ++ List.intercalate (ascii " ") ss ++ ascii "]"

/-- core/negotiation.go `trustDelta`: +0.05 on accept, -0.02 on reject. -/
def trustDeltaOf (accepted : Bool) : F32 :=
  if accepted then .val (1 / 20) else .val (-(1 / 50))

/-- core/negotiation.go `DefaultNegotiationHandler` (the closure body).  The
`time.Now` stamp is a parameter.  The response is built, then signed over
`RequestID + Reason`; a signing failure leaves the signature empty and the
response is returned either way. -/
def defaultNegotiationHandler (scheme : SigScheme) (ts : Int) (agent : GoAgent)
    (intent : IntentMessage) : NegotiationResponse :=
  let missing := missingCapabilities intent.capabilities agent.capabilities
  let accepted := missing = ([] : List Bytes)
  let reason : Bytes :=
    if accepted then ascii "all capabilities available"
    else ascii "missing capabilities: " ++ goFmtStrs missing
  let steps : List Bytes := if accepted then buildWorkflow intent else []
  let resp : NegotiationResponse :=
    { requestID := intent.id, agentID := agent.id, accepted := accepted,
      workflowSteps := steps, did := didString agent.did,
      responseVector := reflectVector intent.intentVector, timestamp := ts,
      reason := reason, trustDelta := trustDeltaOf accepted, signature := [] }
  match agent.did.sign scheme (resp.requestID ++ resp.reason) with
  | some sig => { resp with signature := sig }
  | none => resp

/-! ## Handshake engine (core/handshake.go) -/

/-- core/handshake.go `RespondHandshake`: verify the initiator's DID-key
binding, sign its challenge, and answer with our identity plus a fresh nonce
(`nonce` is the RNG input).  `none` models any of the three error returns. -/
def respondHandshake (scheme : SigScheme) (hashHex : Bytes → Bytes) (nonce : Bytes)
    (ts : Int) (responder : GoAgent) (incoming : HandshakeMessage) :
    Option HandshakeMessage :=
  match parseDID incoming.did with
  | none => none
  | some peerDID =>
    if validateBinding hashHex peerDID incoming.publicKey then
      match responder.did.sign scheme incoming.challenge with
      | none => none
      | some sig =>
          some { agentID := responder.id, did := didString responder.did,
                 capabilities := responder.capabilities, version := ascii "1.0.0",
                 timestamp := ts, publicKey := (responder.did.pubKey).getD [],
                 challenge := nonce, challengeResponse := sig }
    else none

/-- core/handshake.go `FinishHandshake`: parse the peer DID, check the
DID-key binding, rebuild the DID from the transmitted key and verify the
signature over the initiator's original challenge. -/
def finishHandshake (scheme : SigScheme) (hashHex : Bytes → Bytes)
    (originalChallenge : Bytes) (response : HandshakeMessage) : Except String Unit :=
  match parseDID response.did with
  | none => .error "handshake finish: peer DID invalid"
  | some peerDID =>
    if validateBinding hashHex peerDID response.publicKey then
      match didFromPublicKey hashHex response.publicKey with
      | none => .error "handshake finish: invalid public key"
      | some d =>
          if d.verify scheme originalChallenge response.challengeResponse then .ok ()
          else .error "handshake finish: challenge signature invalid"
    else .error "handshake finish: DID/key binding mismatch"

/-! ## Discovery registry (core/discovery.go) -/

/-- core/negotiation.go `AgentProfile`. -/
structure AgentProfileM where
  agentID : Bytes
  did : Bytes
  capabilities : List Bytes
  embeddingVector : List Nat
  publicKey : Bytes
deriving DecidableEq

/-- core/discovery.go `registryEntry`: profile plus absolute expiry in Unix
nanoseconds, 0 standing for the zero time (no expiry). -/
structure RegistryEntry where
  profile : AgentProfileM
  expiresAt : Int
deriving DecidableEq

/-- core/discovery.go `DiscoveryRegistry`: the Go map keyed by agent id, as
an association list. -/
structure DiscoveryRegistry where
  entries : List (Bytes × RegistryEntry)
deriving DecidableEq

/-- core/discovery.go `registryEntry.isExpired` at the given current time. -/
def isExpired (now : Int) (e : RegistryEntry) : Bool :=
  if e.expiresAt = 0 then false else decide (e.expiresAt < now)

/-- core/discovery.go `Announce`: insert or overwrite, with an absolute
expiry when the TTL is positive (`now` models `time.Now`). -/
def announce (r : DiscoveryRegistry) (now : Int) (profile : AgentProfileM)
    (ttlSeconds : Int) : DiscoveryRegistry :=
  let exp : Int := if 0 < ttlSeconds then now + ttlSeconds * 1000000000 else 0
  ⟨putKV r.entries profile.agentID ⟨profile, exp⟩⟩

/-- core/discovery.go `hasAll`: every required tag occurs in the available
list (the Go set lookup is list membership). -/
def hasAll (available required : List Bytes) : Bool :=
  required.all (fun c => decide (c ∈ available))

/-- core/discovery.go `FindByCapability`: the profiles of all non-expired
entries declaring every required capability, in table order. -/
def findByCapability (r : DiscoveryRegistry) (now : Int) (required : List Bytes) :
    List AgentProfileM :=
  ((r.entries.filter (fun p =>
      !(isExpired now p.2) && hasAll p.2.profile.capabilities required)).map
    (fun p => p.2.profile))

/-! ## Host and dispatcher (p2p host.go) -/

/-- External inputs of one host step: the crypto primitives, the bytes the
OS RNG would return, and the current time. -/
structure GoEnv where
  scheme : SigScheme
  hashHex : Bytes → Bytes
  nonce : Bytes
  nowNanos : Int

/-- p2p host.go `AgentHost` state: the local agent, discovery registry,
trust graph, the `known` profile cache keyed by transport peer id, and the
optional callbacks. -/
structure HostState where
  agent : GoAgent
  discovery : DiscoveryRegistry
  trust : TrustGraph
  known : List (Bytes × AgentProfileM)
  onHandshake : Option (Bytes → HandshakeMessage → Option HandshakeMessage)
  onIntent : Option (Bytes → IntentMessage → Option NegotiationResponse)

/-- The reply a stream handler writes back, at message level (`writeMsg`
frames and encodes it; the framing itself is `goFrame`). -/
inductive HostOutput where
  | silent : HostOutput
  | handshakeReply (m : HandshakeMessage) : HostOutput
  | negotiationReply (r : NegotiationResponse) : HostOutput
deriving DecidableEq

/-- p2p host.go `handleIncomingHandshake`: decode, ask the callback or the
default responder, write the reply, cache the initiator's profile and insert
it into discovery with TTL 0. -/
def handleIncomingHandshake (env : GoEnv) (st : HostState) (peerID : Bytes)
    (data : Bytes) : HostState × HostOutput :=
  match decodeHandshake data with
  | none => (st, .silent)
  | some incoming =>
    let cbResp : Option HandshakeMessage :=
      match st.onHandshake with
      | some cb => cb peerID incoming
      | none => none
    let resp : Option HandshakeMessage :=
      match cbResp with
      | some r => some r
      | none => respondHandshake env.scheme env.hashHex env.nonce env.nowNanos st.agent incoming
    match resp with
    | none => (st, .silent)
    | some r =>
      let profile : AgentProfileM :=
        { agentID := incoming.agentID, did := incoming.did,
          capabilities := incoming.capabilities, embeddingVector := [], publicKey := [] }
      ({ st with known := putKV st.known peerID profile,
                 discovery := announce st.discovery env.nowNanos profile 0 },
       .handshakeReply r)

/-- p2p host.go `handleIncomingIntent`: decode, ask the callback, fall back
to the default negotiation handler, write the response unconditionally — no
signature check of any kind happens — and apply the response's trust delta to
`local did -> sender did`. -/
def handleIncomingIntent (env : GoEnv) (st : HostState) (peerID : Bytes)
    (data : Bytes) : HostState × HostOutput :=
  match decodeIntent data with
  | none => (st, .silent)
  | some intent =>
    let cbResp : Option NegotiationResponse :=
      match st.onIntent with
      | some cb => cb peerID intent
      | none => none
    let resp : Option NegotiationResponse :=
      match cbResp with
      | some r => some r
      | none => some (defaultNegotiationHandler env.scheme env.nowNanos st.agent intent)
    match resp with
    | none => (st, .silent)
    | some r =>
      ({ st with trust := st.trust.apply (didString st.agent.did) intent.did r.trustDelta },
       .negotiationReply r)

/-- p2p host.go `handleIncomingCapability`: the body only declares an empty
announcement and a TODO — the payload is never decoded and the discovery
registry is never touched. -/
def handleIncomingCapability (_env : GoEnv) (st : HostState) (_data : Bytes) : HostState :=
  st

/-- p2p host.go `handleStream`: read one framed message and switch on the
type byte — 0x01 handshake, 0x02 intent, 0x05 capability announcement, and
anything else dropped silently. -/
def handleStream (env : GoEnv) (st : HostState) (peerID : Bytes) (input : Bytes) :
    HostState × HostOutput :=
  match readMsg input with
  | .error _ => (st, .silent)
  | .ok (typ, data) =>
    if typ = 1 then handleIncomingHandshake env st peerID data
    else if typ = 2 then handleIncomingIntent env st peerID data
    else if typ = 5 then (handleIncomingCapability env st data, .silent)
    else (st, .silent)

/-- p2p host.go `Handshake`, from the moment the H2 response has been decoded
(lines 141-158): `FinishHandshake` runs only when the challenge_response is
non-empty; afterwards — or directly, when it is empty — the peer's profile is
cached in `known` and announced to discovery with TTL 0. -/
def handshakeFinishAndCache (env : GoEnv) (st : HostState) (peerID : Bytes)
    (ourChallenge : Bytes) (resp : HandshakeMessage) :
    Except String (HostState × HandshakeMessage) :=
  let check : Except String Unit :=
    if resp.challengeResponse = [] then .ok ()
    else finishHandshake env.scheme env.hashHex ourChallenge resp
  match check with
  | .error e => .error e
  | .ok _ =>
    let profile : AgentProfileM :=
      { agentID := resp.agentID, did := resp.did, capabilities := resp.capabilities,
        embeddingVector := [], publicKey := [] }
    .ok ({ st with known := putKV st.known peerID profile,
                   discovery := announce st.discovery env.nowNanos profile 0 },
         resp)

set_option maxRecDepth 10000

/-! ## Claim C1 -/

/-- A fully populated intent: every field non-default, including a non-empty
detached signature. -/
def intentC1 : IntentMessage :=
  { id := ascii "ab12", intentVector := [0x3F000000, 0xBF000000],
    capabilities := [ascii "nlp", ascii "summarisation"],
    did := ascii "did:symplex:aa", payload := ascii "hello",
    timestamp := 1700000000000000000, trustScore := 0x3F000000,
    metadata := [(ascii "protocol", ascii "1.0.0")],
    signature := [9, 9, 9] }

/-- C1: decoding the encoding of a wire message yields the message again up
to map order and default fields, preserving in particular a non-empty
detached signature.  REFUTED at `intentC1`: `IntentMessage.Encode` writes
fields 1-8 only and never the signature (and `DecodeIntentMessage` has no
case for it), so the round trip of a message carrying signature `[9,9,9]`
returns the message with an empty signature — the repository's own
`TestIntentSignatureRoundTrip` asserts the opposite. -/
theorem intent_roundtrip_drops_signature :
    decodeIntent (encodeIntent intentC1) = some { intentC1 with signature := [] } ∧
    intentC1.signature ≠ [] := by
  constructor
  · decide
  · decide

/-! ## Claim C2 -/

theorem decodeIntentAux_signature (fuel : Nat) :
    ∀ (m : IntentMessage) (data : Bytes) (out : IntentMessage),
      decodeIntentAux fuel m data = some out → out.signature = m.signature := by
  induction fuel with
  | zero =>
    intro m data out h
    cases data with
    | nil => simp only [decodeIntentAux, Option.some.injEq] at h; rw [← h]
    | cons b rest => exact Option.noConfusion h
  | succ fuel ih =>
    intro m data out h
    cases data with
    | nil => simp only [decodeIntentAux, Option.some.injEq] at h; rw [← h]
    | cons b rest =>
      simp only [decodeIntentAux] at h
      split at h
      · exact Option.noConfusion h
      · split_ifs at h <;> (repeat split at h) <;>
          first
          | exact Option.noConfusion h
          | (have hs := ih _ _ _ h; exact hs)

/-- Any successfully decoded intent carries an empty signature: the decoder
starts from the zero message and no case writes the field. -/
theorem decodeIntent_signature_empty (data : Bytes) (out : IntentMessage)
    (h : decodeIntent data = some out) : out.signature = [] :=
  decodeIntentAux_signature data.length _ data out h

/-- C2: for every agent whose DID holds a signing key, `CreateIntent` returns
an intent with a non-empty signature that `VerifyIntentSignature` accepts
against the sender's verifying key, and the verification still returns true
after an encode-decode round trip.  The Ed25519 hypotheses are the standard
correctness of the external primitive: verification accepts the key pair's
own signatures, and signatures are non-empty (Ed25519 signatures are 64
bytes).  Note the post-round-trip conjunct holds because the codec drops the
signature (claim C1) and `VerifyIntentSignature` passes unsigned messages
through. -/
theorem createIntent_signs_and_verifies
    (scheme : SigScheme) (hashHex : Bytes → Bytes)
    (aid method didId : Bytes) (pubOpt : Option Bytes) (priv pub : Bytes)
    (acaps : List Bytes) (idHex : Bytes) (ts : Int) (vec : List Nat)
    (caps : List Bytes) (payload : Bytes)
    (hlen : pub.length = 32)
    (hcorrect : ∀ data, scheme.verify pub data (scheme.sign priv data) = true)
    (hne : ∀ data, scheme.sign priv data ≠ []) :
    ∃ m, createIntent scheme ⟨aid, ⟨method, didId, pubOpt, some priv⟩, acaps⟩
        idHex ts vec caps payload = some m
      ∧ m.signature ≠ []
      ∧ verifyIntentSignature scheme hashHex m pub = true
      ∧ ∀ m2, decodeIntent (encodeIntent m) = some m2 →
          verifyIntentSignature scheme hashHex m2 pub = true := by
  refine ⟨_, rfl, hne (idHex ++ payload), ?_, ?_⟩
  · show verifyIntentSignature scheme hashHex _ pub = true
    unfold verifyIntentSignature didFromPublicKey
    rw [if_neg (hne (idHex ++ payload)), if_pos hlen]
    exact hcorrect (idHex ++ payload)
  · intro m2 h2
    unfold verifyIntentSignature
    rw [if_pos (decodeIntent_signature_empty _ _ h2)]

/-- A toy instantiation of the external signature primitive used only to
discharge hypotheses at concrete inputs: a signature is the message prefixed
by a zero byte, and verification recomputes it. -/
def schemeW : SigScheme :=
  ⟨fun _ d => 0 :: d, fun _ d s => decide (s = 0 :: d)⟩

/-- A stand-in for the hex SHA-256 digest in concrete instantiations. -/
def hashHexW : Bytes → Bytes := fun _ => ascii "00"

theorem createIntent_signs_and_verifies_witness :
    ∃ m, createIntent schemeW
        ⟨ascii "alpha", ⟨ascii "symplex", ascii "aa", some (List.replicate 32 0), some [1]⟩,
         [ascii "nlp"]⟩ (ascii "id01") 7 [1] [ascii "nlp"] (ascii "hi") = some m
      ∧ m.signature ≠ []
      ∧ verifyIntentSignature schemeW hashHexW m (List.replicate 32 0) = true
      ∧ ∀ m2, decodeIntent (encodeIntent m) = some m2 →
          verifyIntentSignature schemeW hashHexW m2 (List.replicate 32 0) = true :=
  createIntent_signs_and_verifies schemeW hashHexW (ascii "alpha") (ascii "symplex")
    (ascii "aa") (some (List.replicate 32 0)) [1] (List.replicate 32 0) [ascii "nlp"]
    (ascii "id01") 7 [1] [ascii "nlp"] (ascii "hi")
    (by decide) (fun d => by simp [schemeW]) (fun d => by simp [schemeW])

/-! ## Claim C7 -/

theorem handler_accepted (scheme : SigScheme) (ts : Int) (agent : GoAgent)
    (intent : IntentMessage) :
    (defaultNegotiationHandler scheme ts agent intent).accepted =
      decide (missingCapabilities intent.capabilities agent.capabilities = []) := by
  simp only [defaultNegotiationHandler]
  split <;> rfl

theorem handler_steps (scheme : SigScheme) (ts : Int) (agent : GoAgent)
    (intent : IntentMessage) :
    (defaultNegotiationHandler scheme ts agent intent).workflowSteps =
      if missingCapabilities intent.capabilities agent.capabilities = [] then
        buildWorkflow intent
      else [] := by
  simp only [defaultNegotiationHandler]
  split <;> rfl

theorem handler_reason (scheme : SigScheme) (ts : Int) (agent : GoAgent)
    (intent : IntentMessage) :
    (defaultNegotiationHandler scheme ts agent intent).reason =
      if missingCapabilities intent.capabilities agent.capabilities = [] then
        ascii "all capabilities available"
      else
        ascii "missing capabilities: "
          ++ goFmtStrs (missingCapabilities intent.capabilities agent.capabilities) := by
  simp only [defaultNegotiationHandler]
  split <;> rfl

theorem missing_nil_iff (required available : List Bytes) :
    missingCapabilities required available = [] ↔ ∀ c ∈ required, c ∈ available := by
  unfold missingCapabilities
  rw [List.filter_eq_nil_iff]
  simp

/-- C7: the default negotiation handler accepts exactly when every required
capability tag occurs (by string equality) in the agent's capability list; on
accept the workflow is `parse_intent:<id>`, one `execute:<cap>` per required
capability in input order, then `return_result:<id>`; on reject the workflow
is empty and the reason is the "missing capabilities: " prefix followed by
exactly the missing tags, in input order. -/
theorem default_handler_policy (scheme : SigScheme) (ts : Int) (agent : GoAgent)
    (intent : IntentMessage) :
    ((defaultNegotiationHandler scheme ts agent intent).accepted = true ↔
        ∀ c ∈ intent.capabilities, c ∈ agent.capabilities)
    ∧ ((defaultNegotiationHandler scheme ts agent intent).accepted = true →
        (defaultNegotiationHandler scheme ts agent intent).workflowSteps =
          (ascii "parse_intent:" ++ intent.id)
            :: (intent.capabilities.map (fun c => ascii "execute:" ++ c)
                ++ [ascii "return_result:" ++ intent.id]))
    ∧ ((defaultNegotiationHandler scheme ts agent intent).accepted = false →
        (defaultNegotiationHandler scheme ts agent intent).workflowSteps = []
        ∧ (defaultNegotiationHandler scheme ts agent intent).reason =
            ascii "missing capabilities: "
              ++ goFmtStrs
                  (intent.capabilities.filter (fun c => decide (c ∉ agent.capabilities)))) := by
  have hmiss := missing_nil_iff intent.capabilities agent.capabilities
  refine ⟨?_, ?_, ?_⟩
  · rw [handler_accepted, decide_eq_true_iff]
    exact hmiss
  · intro hacc
    rw [handler_accepted, decide_eq_true_iff] at hacc
    rw [handler_steps, if_pos hacc]
    rfl
  · intro hrej
    rw [handler_accepted] at hrej
    have hne : ¬ missingCapabilities intent.capabilities agent.capabilities = [] := by
      intro hc
      rw [hc] at hrej
      simp at hrej
    exact ⟨by rw [handler_steps, if_neg hne],
           by rw [handler_reason, if_neg hne]; rfl⟩

/-- Concrete responder lacking the required capability, for the C7 witness. -/
def agentC7 : GoAgent :=
  ⟨ascii "beta", ⟨ascii "symplex", ascii "bb", none, some [2]⟩, [ascii "code-gen"]⟩

/-- Concrete intent requiring a capability `agentC7` lacks. -/
def intentC7 : IntentMessage :=
  { id := ascii "rq1", intentVector := [], capabilities := [ascii "summarisation"],
    did := [], payload := [], timestamp := 0, trustScore := 0, metadata := [],
    signature := [] }

theorem default_handler_policy_witness :
    (defaultNegotiationHandler schemeW 5 agentC7 intentC7).workflowSteps = []
    ∧ (defaultNegotiationHandler schemeW 5 agentC7 intentC7).reason =
        ascii "missing capabilities: " ++ goFmtStrs [ascii "summarisation"] := by
  have h := (default_handler_policy schemeW 5 agentC7 intentC7).2.2 (by decide)
  exact ⟨h.1, by rw [h.2]; decide⟩

/-! ## Claim C8 -/

/-- C8 as stated quantifies over arbitrary float arguments.  REFUTED by NaN:
`clamp` is built from two Go comparisons, both false on NaN, so a NaN score
is stored unclamped and `Get` returns it — not a value in [0,1]. -/
theorem trust_nan_escapes_clamp :
    (runTrustOps [TrustOp.set (ascii "a") (ascii "b") F32.nan] ⟨[]⟩).get
        (ascii "a") (ascii "b") = F32.nan
    ∧ ¬ ((runTrustOps [TrustOp.set (ascii "a") (ascii "b") F32.nan] ⟨[]⟩).get
          (ascii "a") (ascii "b")).inUnit := by
  have h : (runTrustOps [TrustOp.set (ascii "a") (ascii "b") F32.nan] ⟨[]⟩).get
      (ascii "a") (ascii "b") = F32.nan := by decide
  exact ⟨h, by rw [h]; exact fun hc => hc⟩

/-- C8 (amended): starting from the empty ledger, after any finite sequence
of Set and Apply calls whose float arguments are not NaN, every value Get
returns lies in [0,1]; a ledger key never written still reads 0.  (A NaN
argument is stored unclamped, and two distinct DID pairs can share a key —
claim C9.) -/
theorem trust_scores_in_unit (ops : List TrustOp) (fromDid toDid : Bytes)
    (hops : ∀ op ∈ ops, op.arg ≠ F32.nan) :
    ((runTrustOps ops ⟨[]⟩).get fromDid toDid).inUnit
    ∧ ((∀ op ∈ ops, op.key ≠ trustKey fromDid toDid) →
        (runTrustOps ops ⟨[]⟩).get fromDid toDid = F32.val 0) := by
  constructor
  · have hwf := runTrustOps_wf ops ⟨[]⟩ hops
      (by intro p hp; exact absurd hp (List.not_mem_nil p))
    exact getKV_wf _ _ hwf
  · intro hk
    have h := runTrustOps_frame ops ⟨[]⟩ (trustKey fromDid toDid) hk
    exact h

theorem trust_scores_in_unit_witness :
    ((runTrustOps [TrustOp.set (ascii "a") (ascii "b") (F32.val 2),
                   TrustOp.app (ascii "a") (ascii "b") (F32.val (-5))] ⟨[]⟩).get
        (ascii "a") (ascii "b")).inUnit :=
  (trust_scores_in_unit _ (ascii "a") (ascii "b") (by decide)).1

/-! ## Claim C9 -/

theorem getKV_putKV_ne {β : Type} (l : List (Bytes × β)) (k0 k : Bytes) (v d : β)
    (h : k0 ≠ k) : getKV (putKV l k0 v) k d = getKV l k d := by
  induction l with
  | nil => simp [putKV, getKV, h]
  | cons hd tl ih =>
    simp only [putKV]
    by_cases h0 : hd.1 = k0
    · simp [h0, getKV, h]
    · simp only [h0, if_false, getKV]
      by_cases h1 : hd.1 = k
      · simp [h1]
      · simp [h1, ih]

/-- C9: two directed DID pairs that are distinct as pairs can nonetheless
collide in the ledger, because the key is the raw concatenation
`from + "->" + to`.  REFUTED: a Set on ("a->b", "c") changes the value Get
returns for the distinct pair ("a", "b->c") from 0 to 1. -/
theorem trust_key_collision :
    ((ascii "a->b", ascii "c") ≠ (ascii "a", ascii "b->c"))
    ∧ (TrustGraph.set ⟨[]⟩ (ascii "a->b") (ascii "c") (F32.val 1)).get
        (ascii "a") (ascii "b->c") = F32.val 1
    ∧ (⟨[]⟩ : TrustGraph).get (ascii "a") (ascii "b->c") = F32.val 0 :=
  ⟨by decide, by decide, by decide⟩

/-- C9 (amended): a Set or Apply on (from, to) leaves Get(from2, to2)
unchanged for every pair whose ledger key `from + "->" + to` differs — in
particular for all distinct pairs of DIDs that contain no "->", such as every
`did:<method>:<hex>` string. -/
theorem trust_updates_independent (tg : TrustGraph) (f t f2 t2 : Bytes) (v : F32)
    (h : trustKey f t ≠ trustKey f2 t2) :
    (tg.set f t v).get f2 t2 = tg.get f2 t2
    ∧ (tg.apply f t v).get f2 t2 = tg.get f2 t2 :=
  ⟨getKV_putKV_ne tg.scores _ _ _ _ h, getKV_putKV_ne tg.scores _ _ _ _ h⟩

theorem trust_updates_independent_witness :
    (TrustGraph.set ⟨[]⟩ (ascii "a") (ascii "b") (F32.val 1)).get (ascii "c") (ascii "d")
        = (⟨[]⟩ : TrustGraph).get (ascii "c") (ascii "d")
    ∧ (TrustGraph.apply ⟨[]⟩ (ascii "a") (ascii "b") (F32.val 1)).get (ascii "c") (ascii "d")
        = (⟨[]⟩ : TrustGraph).get (ascii "c") (ascii "d") :=
  trust_updates_independent ⟨[]⟩ (ascii "a") (ascii "b") (ascii "c") (ascii "d")
    (F32.val 1) (by decide)

/-! ## Claim C10 -/

/-- C10: `CosineSimilarity` is symmetric, including the degenerate cases of
unequal lengths, empty vectors and zero norms.  The only fact it needs from
the float64 arithmetic is that multiplication commutes on values, which IEEE
multiplication does; both directions perform the additions in identical
order, so no assumption on addition is needed. -/
theorem cosine_symmetric {α : Type} (ops : GoFloatOps α)
    (hmul : ∀ x y, ops.mul x y = ops.mul y x) (a b : List α) :
    CosineSimilarity ops a b = CosineSimilarity ops b a := by
  simp only [CosineSimilarity]
  rw [cosLoop_swap ops hmul a b ops.zero ops.zero ops.zero]
  dsimp only
  by_cases hlen : a.length = b.length
  · by_cases hzero : a.length = 0
    · rw [if_pos (Or.inr hzero), if_pos (Or.inr (by omega))]
    · have hc1 : ¬(a.length ≠ b.length ∨ a.length = 0) := by
        push_neg; exact ⟨hlen, hzero⟩
      have hc2 : ¬(b.length ≠ a.length ∨ b.length = 0) := by
        push_neg; exact ⟨hlen.symm, by omega⟩
      rw [if_neg hc1, if_neg hc2]
      conv_rhs => rw [Bool.or_comm]
      split_ifs with h1
      · rfl
      · rw [hmul]
  · rw [if_pos (Or.inl hlen), if_pos (Or.inl (fun hc => hlen hc.symm))]

/-- Exact rational arithmetic as one instance of the float64 operations, for
concrete instantiations. -/
def ratOps : GoFloatOps ℚ :=
  ⟨0, fun x y => x + y, fun x y => x * y, fun x y => x / y, id, fun x y => decide (x = y)⟩

theorem cosine_symmetric_witness :
    CosineSimilarity ratOps [1, 2] [3, 4] = CosineSimilarity ratOps [3, 4] [1, 2] :=
  cosine_symmetric ratOps (fun x y => mul_comm x y) [1, 2] [3, 4]

/-! ## Claims C3-C6: concrete hosts and frames -/

/-- Helper: true exactly on `Except.ok`. -/
def exceptOk {ε α : Type} : Except ε α → Bool
  | .ok _ => true
  | .error _ => false

/-- A concrete local agent whose DID holds both keys. -/
def agentW : GoAgent :=
  ⟨ascii "alpha", ⟨ascii "symplex", ascii "aa", some (List.replicate 32 0), some [1]⟩,
   [ascii "nlp"]⟩

/-- A concrete environment: toy crypto, fixed RNG output and clock. -/
def envW : GoEnv := ⟨schemeW, hashHexW, List.replicate 32 2, 9⟩

/-- A freshly started host: empty registry, ledger and peer cache, no
callbacks. -/
def hostW : HostState := ⟨agentW, ⟨[]⟩, ⟨[]⟩, [], none, none⟩

/-! ## Claim C6 -/

/-- C6: the unframing/reading functions reject short inputs and out-of-range
advertised lengths with an error, never panicking.  REFUTED for `Unframe`:
on the 5-byte frame advertising body length 0 (below the minimum of 1) the
guards pass and the Go slice expression `frame[5:4]` panics instead of
returning an error. -/
theorem unframe_panics_on_zero_length :
    unframe [0, 0, 0, 0, 7] = UnframeResult.panicked := by decide

/-- C6 (amended): `readMsg` is total and rejecting as claimed — every input
shorter than 5 bytes, or advertising a body length below 1 or above 4 MiB,
yields an error and no payload.  `Unframe` rejects inputs shorter than
5 bytes (and incomplete frames), but checks no upper bound and panics when
the advertised length is 0. -/
theorem readMsg_rejects_bad_frames (input : Bytes)
    (h : input.length < 5 ∨ be32 (input.take 4) < 1
      ∨ 4 * 1024 * 1024 < be32 (input.take 4)) :
    (∃ e, readMsg input = .error e)
    ∧ (input.length < 5 → unframe input = .err "frame too short") := by
  constructor
  · simp only [readMsg]
    by_cases h4 : input.length < 4
    · rw [if_pos h4]; exact ⟨_, rfl⟩
    · rw [if_neg h4]
      by_cases hn : be32 (input.take 4) < 1 ∨ 4 * 1024 * 1024 < be32 (input.take 4)
      · rw [if_pos hn]; exact ⟨_, rfl⟩
      · rw [if_neg hn]
        have hlen5 : input.length < 5 := by
          rcases h with h | h | h
          · exact h
          · exact absurd (Or.inl h) hn
          · exact absurd (Or.inr h) hn
        have hd : (input.drop 4).length = 0 := by
          rw [List.length_drop]; omega
        have hn1 : 1 ≤ be32 (input.take 4) := by
          by_contra hc
          exact hn (Or.inl (by omega))
        rw [if_pos (by omega)]
        exact ⟨_, rfl⟩
  · intro h5
    simp only [unframe]
    rw [if_pos h5]

theorem readMsg_rejects_bad_frames_witness :
    (∃ e, readMsg [0, 0, 0, 0] = .error e)
    ∧ (([0, 0, 0, 0] : Bytes).length < 5 → unframe [0, 0, 0, 0] = .err "frame too short") :=
  readMsg_rejects_bad_frames [0, 0, 0, 0] (Or.inl (by decide))

/-! ## Claim C5 -/

/-- An H2 response whose challenge_response is empty and whose DID does not
bind to the transmitted public key (the toy digest of any key is "00", not
the claimed "ff"). -/
def respC5 : HandshakeMessage :=
  { agentID := ascii "mallory", did := ascii "did:symplex:ff",
    capabilities := [ascii "nlp"], version := ascii "1.0.0", timestamp := 3,
    publicKey := List.replicate 32 0, challenge := List.replicate 32 1,
    challengeResponse := [] }

/-- C5: the outbound handshake runs FinishHandshake on every H2 response —
including one with an empty challenge_response — and fails on a binding
mismatch or missing valid signature.  REFUTED: on `respC5`, whose binding
mismatches and which carries no signature at all, `FinishHandshake` would
reject, but the host only calls it when the challenge_response is non-empty,
so the handshake completes and the profile is cached. -/
theorem handshake_skips_finish_on_empty_response :
    exceptOk (handshakeFinishAndCache envW hostW (ascii "peer1")
      (List.replicate 32 9) respC5) = true
    ∧ exceptOk (finishHandshake schemeW hashHexW (List.replicate 32 9) respC5) = false
    ∧ respC5.challengeResponse = [] := by
  refine ⟨rfl, ?_, rfl⟩
  decide

/-- C5 (amended): FinishHandshake runs only when the H2 response carries a
non-empty challenge_response; in that case every FinishHandshake failure
(DID parse error, binding mismatch, invalid challenge signature) aborts the
handshake with that error and nothing is cached, while an empty
challenge_response skips verification and the handshake completes. -/
theorem handshake_finish_guard (env : GoEnv) (st : HostState) (peerID ch : Bytes)
    (resp : HandshakeMessage) (e : String) :
    (resp.challengeResponse ≠ [] →
      finishHandshake env.scheme env.hashHex ch resp = .error e →
      handshakeFinishAndCache env st peerID ch resp = .error e)
    ∧ (resp.challengeResponse = [] →
      exceptOk (handshakeFinishAndCache env st peerID ch resp) = true) := by
  constructor
  · intro hne hfail
    simp only [handshakeFinishAndCache]
    rw [if_neg hne, hfail]
  · intro hemp
    simp only [handshakeFinishAndCache]
    rw [if_pos hemp]
    rfl

/-- The same forged H2 but with a non-empty challenge_response, so that the
guard does run FinishHandshake. -/
def respC5bad : HandshakeMessage := { respC5 with challengeResponse := [5] }

theorem handshake_finish_guard_witness :
    handshakeFinishAndCache envW hostW (ascii "peer1") (List.replicate 32 9) respC5bad
      = .error "handshake finish: DID/key binding mismatch" :=
  (handshake_finish_guard envW hostW (ascii "peer1") (List.replicate 32 9) respC5bad
    "handshake finish: DID/key binding mismatch").1 (by decide) rfl

/-! ## Claim C3 -/

/-- A concrete capability announcement from agent alpha. -/
def annC3 : CapabilityAnnouncement :=
  ⟨ascii "alpha", ascii "did:symplex:aa", [ascii "nlp", ascii "reasoning"], 3, 300⟩

/-- The framed announcement as it arrives on a stream. -/
def frameC3 : Bytes := goFrame 5 (encodeCapability annC3)

/-- C3: on a framed CapabilityAnnouncement the stream handler decodes the
payload and inserts the profile into the discovery registry, after which
find_by_capability returns it.  REFUTED: `handleIncomingCapability` is an
empty stub (its TODO admits the decode-and-register step is missing), so the
registry is untouched and the announcing agent stays undiscoverable, even
though the frame parses as type 0x05 and its payload decodes to the
announcement. -/
theorem capability_announcement_ignored :
    readMsg frameC3 = .ok (5, encodeCapability annC3)
    ∧ decodeCapability (encodeCapability annC3) = some annC3
    ∧ (handleStream envW hostW (ascii "peer1") frameC3).1.discovery = hostW.discovery
    ∧ findByCapability (handleStream envW hostW (ascii "peer1") frameC3).1.discovery
        envW.nowNanos [ascii "nlp"] = [] := by
  refine ⟨rfl, rfl, rfl, rfl⟩

/-! ## Claim C4 -/

/-- Alpha's key pair in the toy scheme. -/
def alphaPub : Bytes := List.replicate 32 0

/-- The signature alpha produced over `id + "original"` before mutating the
payload to "tampered". -/
def origSigC4 : Bytes := schemeW.sign [1] (ascii "rq42" ++ ascii "original")

/-- The tampered intent as the sender transmits it. -/
def intentC4 : IntentMessage :=
  { id := ascii "rq42", intentVector := [halfBits], capabilities := [ascii "nlp"],
    did := ascii "did:symplex:aa", payload := ascii "tampered", timestamp := 5,
    trustScore := halfBits, metadata := [(ascii "protocol", ascii "1.0.0")],
    signature := origSigC4 }

/-- The receiving agent. -/
def betaAgent : GoAgent :=
  ⟨ascii "beta", ⟨ascii "symplex", ascii "bb", some (List.replicate 32 3), some [2]⟩,
   [ascii "nlp"]⟩

/-- Beta's host with alpha's verifying key cached against the transport peer
id (the premise of the claim), no callbacks registered. -/
def hostC4 : HostState :=
  ⟨betaAgent, ⟨[]⟩, ⟨[]⟩,
   [(ascii "peerA", ⟨ascii "alpha", ascii "did:symplex:aa", [ascii "nlp"], [], alphaPub⟩)],
   none, none⟩

/-- The framed tampered intent. -/
def frameC4 : Bytes := goFrame 2 (encodeIntent intentC4)

/-- C4: a host holding the sender's verifying key drops an inbound intent
whose signature fails over `id + payload`: no handler runs, no response is
written.  REFUTED: `handleIncomingIntent` performs no signature check at all
(the wire format does not even carry the signature), so on the tampered
intent — whose original signature indeed fails against the cached key — the
default negotiation handler is invoked and its response is written back. -/
theorem tampered_intent_still_handled :
    (getKV hostC4.known (ascii "peerA") ⟨[], [], [], [], []⟩).publicKey = alphaPub
    ∧ schemeW.verify alphaPub (ascii "rq42" ++ ascii "tampered") origSigC4 = false
    ∧ (handleStream envW hostC4 (ascii "peerA") frameC4).2 =
        HostOutput.negotiationReply
          (defaultNegotiationHandler schemeW envW.nowNanos betaAgent
            { intentC4 with signature := [] }) := by
  refine ⟨by decide, by decide, rfl⟩

end ASP
